import Mathlib

/-!
# PolyAgent: a verification development

A shallow embedding, in Lean 4, of the core subsystems of the PolyAgent
coding assistant (a Go program): the sandboxed file engine
(`internal/mcp/file_engine.go`), the retrying HTTP transport
(`internal/utils/retry.go`), the streaming chat client
(`internal/api/client.go`), the tool registry (`internal/mcp/handler.go`)
and the conversation loop of the terminal model (`internal/tui/model.go`
together with the `ToolManager` of the same package).

Go strings are modelled as Lean `String`; file contents as `String`
(standing for the byte sequence); machine integers as `Nat`;
`time.Duration` as `ℚ` (the float arithmetic of the backoff computation is
carried out exactly over the rationals); fallible functions return
`Except`.  External effects (the file system, JSON parsing, the system
clock, the sha256 digest) are passed in explicitly as environment
parameters, so every definition is executable.
-/

namespace PolyAgent

/-! ## String and path helpers

Lean counterparts of the Go standard-library functions used by the file
engine: `strings.HasPrefix`, `strings.ToLower`, `filepath.Ext`,
`filepath.Base`.  Paths are plain strings; `filepath.Join(a, b)` is
modelled as `a ++ "/" ++ b`.
-/

/-- `filepath.Base`-like helper: the part of the path after the final
slash (Go's `filepath.Base` also strips trailing separators and maps the
empty path to "."; the engine only ever applies it to ordinary file
paths, where this simpler form agrees). -/
def pathBase (s : String) : String :=
  ⟨(s.data.reverse.takeWhile (fun c => c ≠ '/')).reverse⟩

/-- `filepath.Ext`: the suffix of the final path element starting at its
final dot, the empty string when the final element has no dot. -/
def pathExt (s : String) : String :=
  let revBase := s.data.reverse.takeWhile (fun c => c ≠ '/')
  if revBase.contains '.' then
    ⟨'.' :: (revBase.takeWhile (fun c => c ≠ '.')).reverse⟩
  else ""

/-- `strings.ToLower`, applied characterwise. -/
def strToLower (s : String) : String := ⟨s.data.map Char.toLower⟩

/-- `strings.HasPrefix s pre` (defined over the character lists, so that
it evaluates by kernel reduction). -/
def strStartsWith (s pre : String) : Bool := pre.data.isPrefixOf s.data

/-- An ASCII whitespace character, for `strings.TrimSpace`. -/
def isSpaceChar (c : Char) : Bool := c = ' ' || c = '\t' || c = '\n' || c = '\r'

/-- `strings.TrimSpace` (ASCII whitespace; the stream frames only ever
carry the trailing newline of the line reader). -/
def strTrimSpace (s : String) : String :=
  ⟨((s.data.dropWhile isSpaceChar).reverse.dropWhile isSpaceChar).reverse⟩

/-- Drop the first `n` characters of a string. -/
def strDrop (s : String) (n : Nat) : String := ⟨s.data.drop n⟩

/-! ## File engine: configuration and validation

From `internal/mcp/file_engine.go`.
-/

/-- `FileEngineConfig` of `file_engine.go`. -/
structure FileEngineConfig where
  allowedRoots : List String
  blacklistedExts : List String
  maxFileSize : Nat
  enableCache : Bool
  backupDir : String
deriving Repr, DecidableEq

/-- `DefaultConfig` of `file_engine.go`. -/
def DefaultConfig : FileEngineConfig :=
  { allowedRoots := ["."]
  , blacklistedExts := [".exe", ".dll", ".so", ".dylib", ".bin"]
  , maxFileSize := 10 * 1024 * 1024
  , enableCache := true
  , backupDir := ".polyagent-backups" }

/-- Outcome of `filepath.EvalSymlinks` on a path: the resolved real
path, a does-not-exist error (ignored by `ValidatePath`), or any other
error (surfaced). -/
inductive SymlinkResult where
  | resolved (p : String)
  | notExist
  | evalFailed
deriving Repr, DecidableEq

/-- The path environment: `filepath.Abs` and `filepath.EvalSymlinks`,
supplied externally since they consult the process working directory and
the file system's symlink structure. -/
structure PathEnv where
  abs : String → String
  eval : String → SymlinkResult

/-- The distinct error kinds a file-engine operation can produce.  In
the Go source each is a distinct `fmt.Errorf` message; `pathNotAllowed`
covers both the "path outside allowed roots" and the "file type not
allowed" messages of `ValidatePath`, `genericErr` the wrapped I/O and
symlink-evaluation errors, and the remaining kinds match §7 of the
design. -/
inductive FileError where
  | pathNotAllowed
  | fileTooLarge
  | backupFailed
  | genericErr
deriving Repr, DecidableEq

/-- The absolute path `ValidatePath` goes on to check: the symlink
target when `filepath.EvalSymlinks` succeeds, otherwise the absolute
path itself. -/
def resolvedPath (env : PathEnv) (path : String) : String :=
  let absPath0 := env.abs path
  match env.eval absPath0 with
  | .resolved rp => rp
  | _ => absPath0

/-- The allowed-roots check of `ValidatePath` (file_engine.go:80): some
allowed root, made absolute, is a string prefix (`strings.HasPrefix`) of
the resolved path. -/
def rootAllowed (env : PathEnv) (cfg : FileEngineConfig) (absPath : String) : Bool :=
  cfg.allowedRoots.any (fun root => strStartsWith absPath (env.abs root))

/-- The extension check of `ValidatePath` (file_engine.go:94): the
lower-cased `filepath.Ext` of the resolved path equals a blacklisted
extension. -/
def extBlacklisted (cfg : FileEngineConfig) (absPath : String) : Bool :=
  cfg.blacklistedExts.any (fun b => strToLower (pathExt absPath) = b)

/-- `FileEngine.ValidatePath` (file_engine.go:64).  Resolves the path's
symlinks (falling back to the absolute path when the target does not
exist; a failing evaluation is a distinct, generic error), requires some
allowed root to be a string prefix of the resolved path, then rejects
blacklisted extensions. -/
def ValidatePath (env : PathEnv) (cfg : FileEngineConfig) (path : String) :
    Except FileError Unit :=
  match env.eval (env.abs path) with
  | .evalFailed => .error .genericErr
  | _ =>
    let absPath := resolvedPath env path
    if rootAllowed env cfg absPath then
      if extBlacklisted cfg absPath then .error .pathNotAllowed
      else .ok ()
    else .error .pathNotAllowed

/-- Directory containment, the reading of "lies outside every configured
allowed root" used by the testable property of §8: `p` is the root
itself or lies strictly below it as a directory.  This is the spec-side
notion against which the engine's string-prefix check is compared. -/
def underRootDir (root p : String) : Bool :=
  p = root || strStartsWith p (root ++ "/")

/-- The resolved path lies outside every configured allowed root, in the
directory sense. -/
def outsideAllRootsDir (env : PathEnv) (cfg : FileEngineConfig) (path : String) : Bool :=
  cfg.allowedRoots.all (fun r => ¬ underRootDir (env.abs r) (resolvedPath env path))

/-! ## File engine: disk, cache, read and write

The file system is an association list from paths to contents; reads and
writes record the primitive operations performed, so that "never touches
disk" is a statement about the recorded trace.
-/

/-- The file system contents: path names mapped to file contents. -/
def Disk := List (String × String)

instance : Repr Disk := inferInstanceAs (Repr (List (String × String)))

instance : DecidableEq Disk := inferInstanceAs (DecidableEq (List (String × String)))

/-- Look a path up on the disk. -/
def diskGet (d : Disk) (p : String) : Option String :=
  match d with
  | [] => none
  | kv :: rest => if kv.1 = p then some kv.2 else diskGet rest p

/-- Write a path on the disk (overwriting any previous content). -/
def diskSet (d : Disk) (p : String) (c : String) : Disk :=
  match d with
  | [] => [(p, c)]
  | kv :: rest => if kv.1 = p then (p, c) :: rest else kv :: diskSet rest p c

/-- Remove a path from the disk. -/
def diskRemove (d : Disk) (p : String) : Disk :=
  match d with
  | [] => []
  | kv :: rest => if kv.1 = p then diskRemove rest p else kv :: diskRemove rest p

/-- `os.Rename src dst`: move the content at `src` onto `dst` (the
caller guarantees `src` exists). -/
def diskRename (d : Disk) (src dst : String) : Disk :=
  match diskGet d src with
  | none => d
  | some c => diskSet (diskRemove d src) dst c

/-- A primitive file-system access, for the operation traces. -/
inductive FsOp where
  | statOp (p : String)
  | readOp (p : String)
  | writeOp (p : String)
  | mkdirOp (p : String)
  | renameOp (src dst : String)
  | removeOp (p : String)
deriving Repr, DecidableEq

/-- One entry of the `fileCache`: content plus insertion time
(`time.Time` modelled as seconds, `Nat`). -/
structure CacheItem where
  content : String
  time : Nat
deriving Repr, DecidableEq

/-- The `fileCache` items map (`maxSize` is fixed to 100 by
`newFileCache`; it is kept as a field so the eviction arithmetic is the
source's). -/
structure FileCache where
  items : List (String × CacheItem)
  maxSize : Nat
deriving Repr, DecidableEq

/-- `newFileCache` (file_engine.go:289). -/
def newFileCache : FileCache := { items := [], maxSize := 100 }

/-- Association-list lookup used by the cache. -/
def itemsGet (l : List (String × CacheItem)) (p : String) : Option CacheItem :=
  match l with
  | [] => none
  | kv :: rest => if kv.1 = p then some kv.2 else itemsGet rest p

/-- Association-list insert-or-replace used by the cache. -/
def itemsSet (l : List (String × CacheItem)) (p : String) (v : CacheItem) :
    List (String × CacheItem) :=
  match l with
  | [] => [(p, v)]
  | kv :: rest => if kv.1 = p then (p, v) :: rest else kv :: itemsSet rest p v

/-- `fileCache.get` (file_engine.go:296): a miss when absent or when the
entry is older than five minutes (300 seconds). -/
def cacheGet (c : FileCache) (p : String) (now : Nat) : Option String :=
  match itemsGet c.items p with
  | none => none
  | some item => if now - item.time > 300 then none else some item.content

/-- `fileCache.cleanup` (file_engine.go:328): when more entries than
half the capacity are held, sort by insertion time ascending and delete
the oldest entries until only `maxSize / 2` remain. -/
def cacheCleanup (c : FileCache) : FileCache :=
  let itemCount := c.items.length
  let targetSize := c.maxSize / 2
  if itemCount ≤ targetSize then c
  else
    let sorted := c.items.mergeSort (fun a b => a.2.time ≤ b.2.time)
    let deleted := sorted.take (itemCount - targetSize)
    { c with items := c.items.filter (fun kv => ¬ deleted.contains kv) }

/-- `fileCache.set` (file_engine.go:313): evict when at capacity, then
insert the entry with the current time. -/
def cacheSet (c : FileCache) (p : String) (content : String) (now : Nat) :
    FileCache :=
  let c := if c.items.length ≥ c.maxSize then cacheCleanup c else c
  { c with items := itemsSet c.items p ⟨content, now⟩ }

/-- The mutable state of a `FileEngine` together with the disk it acts
on: `cache = none` models the engine of a config with `EnableCache =
false` (where `engine.cache` is the nil pointer). -/
structure EngineState where
  disk : Disk
  cache : Option FileCache
deriving Repr, DecidableEq

/-- `FileEngine.ReadFile` (file_engine.go:105).  Returns the result, the
updated engine state, and the trace of disk accesses performed. -/
def ReadFile (env : PathEnv) (cfg : FileEngineConfig) (st : EngineState)
    (path : String) (forceRefresh : Bool) (now : Nat) :
    Except FileError String × EngineState × List FsOp :=
  match ValidatePath env cfg path with
  | .error e => (.error e, st, [])
  | .ok _ =>
    match if ¬ forceRefresh then st.cache.bind (fun c => cacheGet c path now)
          else none with
    | some content => (.ok content, st, [])
    | none =>
      match diskGet st.disk path with
      | none => (.error .genericErr, st, [.statOp path])
      | some content =>
        if content.length > cfg.maxFileSize then
          (.error .fileTooLarge, st, [.statOp path])
        else
          let st' := { st with cache := st.cache.map (fun c => cacheSet c path content now) }
          (.ok content, st', [.statOp path, .readOp path])

/-- The fault environment for a write: which of the primitive operations
of `WriteFile`/`createBackup` fail, plus the externally supplied sha256
hex digest and timestamp used to name backups. -/
structure WriteEnv where
  readBackupSourceFails : Bool
  mkdirFails : Bool
  writeBackupFails : Bool
  writeTempFails : Bool
  renameFails : Bool
  hashHex : String → String
  timestamp : String

/-- The backup file name generated by `createBackup`
(file_engine.go:190): `base-hash-timestamp.backup` under the backup
directory (`filepath.Join` modelled as slash concatenation). -/
def backupPath (cfg : FileEngineConfig) (wenv : WriteEnv) (path : String) : String :=
  cfg.backupDir ++ "/" ++
    (pathBase path ++ "-" ++ wenv.hashHex path ++ "-" ++ wenv.timestamp ++ ".backup")

/-- `FileEngine.createBackup` (file_engine.go:174): read the target (a
missing target needs no backup), create the backup directory, write the
snapshot.  Returns the disk after the attempt together with the
operations performed (a failed primitive still appears in the trace, as
the system call was issued). -/
def createBackup (cfg : FileEngineConfig) (wenv : WriteEnv) (d : Disk)
    (path : String) : Except FileError Disk × List FsOp :=
  match diskGet d path with
  | none => (.ok d, [.readOp path])
  | some content =>
    if wenv.readBackupSourceFails then (.error .genericErr, [.readOp path])
    else if wenv.mkdirFails then
      (.error .genericErr, [.readOp path, .mkdirOp cfg.backupDir])
    else if wenv.writeBackupFails then
      (.error .genericErr,
        [.readOp path, .mkdirOp cfg.backupDir, .writeOp (backupPath cfg wenv path)])
    else
      (.ok (diskSet d (backupPath cfg wenv path) content),
        [.readOp path, .mkdirOp cfg.backupDir, .writeOp (backupPath cfg wenv path)])

/-- The outcome of a `WriteFile` call: result, final engine state, the
trace of primitive operations issued, and the successive disk states
passed through before the rename commits (the states in which a crash
would leave the file system). -/
structure WriteOutcome where
  result : Except FileError Unit
  state : EngineState
  trace : List FsOp
  preRenameDisks : List Disk

/-- The backup stage of `WriteFile` (file_engine.go:147): when `backup`
is requested, run `createBackup`, turning any of its errors into the
distinct backup-failure error. -/
def writeBackupStep (cfg : FileEngineConfig) (wenv : WriteEnv) (d : Disk)
    (path : String) (backup : Bool) : Except FileError Disk × List FsOp :=
  if backup then
    match createBackup cfg wenv d path with
    | (.error _, ops) => (.error .backupFailed, ops)
    | (.ok d', ops) => (.ok d', ops)
  else (.ok d, [])

/-- `FileEngine.WriteFile` (file_engine.go:141): validate, optionally
snapshot a backup, write the new content to the sibling `path + ".tmp"`,
rename it onto the target (removing the temp file when the rename
fails), and on success update the cache entry in the same call. -/
def WriteFile (env : PathEnv) (cfg : FileEngineConfig) (wenv : WriteEnv)
    (st : EngineState) (path content : String) (backup : Bool) (now : Nat) :
    WriteOutcome :=
  match ValidatePath env cfg path with
  | .error e => ⟨.error e, st, [], [st.disk]⟩
  | .ok _ =>
    match writeBackupStep cfg wenv st.disk path backup with
    | (.error e, ops) => ⟨.error e, st, ops, [st.disk]⟩
    | (.ok d1, ops) =>
      let tempFile := path ++ ".tmp"
      if wenv.writeTempFails then
        ⟨.error .genericErr, { st with disk := d1 },
          ops ++ [.writeOp tempFile], [st.disk, d1]⟩
      else
        let d2 := diskSet d1 tempFile content
        if wenv.renameFails then
          ⟨.error .genericErr, { st with disk := diskRemove d2 tempFile },
            ops ++ [.writeOp tempFile, .renameOp tempFile path, .removeOp tempFile],
            [st.disk, d1, d2]⟩
        else
          let d3 := diskRename d2 tempFile path
          let st' : EngineState :=
            { disk := d3
            , cache := st.cache.map (fun c => cacheSet c path content now) }
          ⟨.ok (), st', ops ++ [.writeOp tempFile, .renameOp tempFile path],
            [st.disk, d1, d2]⟩

/-! ## Retrying HTTP transport

From `internal/utils/retry.go`.  Durations are rationals (seconds); the
source computes delays in `float64`, which the rational arithmetic
carries out exactly.  The embedding models the nil-context request path,
where the cancellation checks are skipped and the sleep is a plain
`time.Sleep`.
-/

/-- `RetryConfig` of `retry.go` (the `RetryableErrors` predicate is kept
as an optional predicate on the error text, mirroring the nil check of
`shouldRetryError`). -/
structure RetryConfig where
  maxRetries : Nat
  initialDelay : ℚ
  maxDelay : ℚ
  backoffMultiplier : ℚ
  retryableStatusCodes : List Nat
  retryableErrors : Option (String → Bool)

/-- `DefaultRetryConfig` of `retry.go`. -/
def DefaultRetryConfig : RetryConfig :=
  { maxRetries := 3
  , initialDelay := 1
  , maxDelay := 30
  , backoffMultiplier := 2
  , retryableStatusCodes := [408, 429, 500, 502, 503, 504]
  , retryableErrors := some (fun _ => true) }

/-- What one `client.Do` attempt produces: an HTTP response with a
status code, or a network-level error. -/
inductive HttpOutcome where
  | resp (status : Nat)
  | netErr (e : String)
deriving Repr, DecidableEq

/-- The last error remembered by the retry loop, wrapped into the final
message. -/
inductive LastErr where
  | httpStatus (code : Nat)
  | net (e : String)
deriving Repr, DecidableEq

/-- The final outcome of `RetryableHTTPClient.Do`: a returned response,
the wrapped "after N retries" error, or the degenerate `lastResp,
lastErr` return with both nil (unreachable when the loop body runs at
least once). -/
inductive DoResult where
  | ok (status : Nat)
  | exhausted (retries : Nat) (lastErr : LastErr)
  | nilResult
deriving Repr, DecidableEq

/-- The observable behaviour of one `Do` call: its result, how many
request attempts were issued, and the sequence of backoff sleeps
performed. -/
structure DoTrace where
  result : DoResult
  attempts : Nat
  delays : List ℚ
deriving Repr, DecidableEq

/-- `RetryableHTTPClient.calculateDelay` (retry.go:141):
`initialDelay * multiplier^(attempt-1)`, capped at `maxDelay`. -/
def calculateDelay (cfg : RetryConfig) (attempt : Nat) : ℚ :=
  let d := cfg.initialDelay * cfg.backoffMultiplier ^ (attempt - 1)
  if d > cfg.maxDelay then cfg.maxDelay else d

/-- `RetryableHTTPClient.shouldRetryStatus` (retry.go:154). -/
def shouldRetryStatus (cfg : RetryConfig) (statusCode : Nat) : Bool :=
  cfg.retryableStatusCodes.any (fun code => statusCode = code)

/-- `RetryableHTTPClient.shouldRetryError` (retry.go:164). -/
def shouldRetryError (cfg : RetryConfig) (e : String) : Bool :=
  match cfg.retryableErrors with
  | none => false
  | some f => f e

/-- The body of the `Do` retry loop (retry.go:72), one recursive step
per loop iteration; `remaining` counts the iterations left
(`maxRetries + 1` at entry), `attempt` the Go loop variable, `lastErr`
the remembered failure.  `respOf k` is what the wrapped client returns
for attempt `k`. -/
def doAux (cfg : RetryConfig) (respOf : Nat → HttpOutcome) :
    Nat → Nat → Option LastErr → DoTrace
  | 0, _, lastErr =>
    match lastErr with
    | some e => ⟨.exhausted cfg.maxRetries e, 0, []⟩
    | none => ⟨.nilResult, 0, []⟩
  | remaining + 1, attempt, _ =>
    let sleeps : List ℚ := if attempt > 0 then [calculateDelay cfg attempt] else []
    match respOf attempt with
    | .netErr e =>
      if shouldRetryError cfg e then
        let rest := doAux cfg respOf remaining (attempt + 1) (some (.net e))
        ⟨rest.result, rest.attempts + 1, sleeps ++ rest.delays⟩
      else
        ⟨.exhausted cfg.maxRetries (.net e), 1, sleeps⟩
    | .resp code =>
      if shouldRetryStatus cfg code then
        let rest := doAux cfg respOf remaining (attempt + 1) (some (.httpStatus code))
        ⟨rest.result, rest.attempts + 1, sleeps ++ rest.delays⟩
      else
        ⟨.ok code, 1, sleeps⟩

/-- `RetryableHTTPClient.Do` (retry.go:68). -/
def Do (cfg : RetryConfig) (respOf : Nat → HttpOutcome) : DoTrace :=
  doAux cfg respOf (cfg.maxRetries + 1) 0 none

/-! ## API message types

From `internal/api/types.go`.  `json.RawMessage` payloads are carried as
plain strings (the `content` of a text message is its logical text; the
wire-level JSON quoting is a serialization detail outside the model).
-/

/-- `ToolCallFunction` of `types.go`: the function name and the raw
(possibly incomplete) argument string. -/
structure ToolCallFunction where
  name : String
  arguments : String
deriving Repr, DecidableEq

/-- `ToolCall` of `types.go`. -/
structure ToolCall where
  id : String
  type : String
  function : ToolCallFunction
deriving Repr, DecidableEq

/-- `Message` of `types.go`. -/
structure ApiMessage where
  role : String
  content : String
  toolCalls : List ToolCall
  toolCallId : String
  name : String
deriving Repr, DecidableEq

/-- `TextMessage` (types.go:91). -/
def TextMessage (role content : String) : ApiMessage :=
  { role := role, content := content, toolCalls := [], toolCallId := "", name := "" }

/-- `ToolCallMessage` (types.go:100): an assistant message with null
content carrying the calls. -/
def ToolCallMessage (toolCalls : List ToolCall) : ApiMessage :=
  { role := "assistant", content := "", toolCalls := toolCalls
  , toolCallId := "", name := "" }

/-- `ToolResultMessage` (types.go:110). -/
def ToolResultMessage (toolCallID : String) (result : String) : ApiMessage :=
  { role := "tool", content := result, toolCalls := [], toolCallId := toolCallID
  , name := "" }

/-- `Delta` of `types.go`: one decoded streaming event. -/
structure Delta where
  content : String
  reasoningContent : String
  toolCalls : List ToolCall
deriving Repr, DecidableEq

/-- `Choice` of `types.go`, the part read by the stream loop. -/
structure Choice where
  delta : Option Delta
deriving Repr, DecidableEq

/-- `StreamChunk` of `types.go`, the part read by the stream loop. -/
structure StreamChunk where
  choices : List Choice
deriving Repr, DecidableEq

/-! ## Stream decoder

The frame-reading loop of `Client.StreamChat` (client.go:289).
`json.Unmarshal` is an environment parameter `parseChunk`; a frame whose
payload it rejects is skipped.  The loop ends at EOF (end of the line
list) or at the literal `[DONE]` payload; in both cases `StreamChat`
returns a nil error.
-/

/-- What the loop body of `StreamChat` does with one line: terminate
(the `[DONE]` sentinel), skip it (no `data: ` prefix, unparseable
payload, or no first-choice delta), or hand a delta to `onChunk`. -/
inductive LineStep where
  | stop
  | skip
  | emit (d : Delta)
deriving Repr, DecidableEq

/-- One iteration of the frame loop of `StreamChat` (client.go:290): the
line is trimmed; a `data: ` line has its payload compared against
`[DONE]` and otherwise JSON-decoded, a failed decode being skipped; a
decoded chunk is skipped unless its first choice carries a delta. -/
def classifyLine (parseChunk : String → Option StreamChunk) (line : String) :
    LineStep :=
  let l := strTrimSpace line
  if strStartsWith l "data: " then
    let data := strDrop l 6
    if data = "[DONE]" then .stop
    else
      match parseChunk data with
      | none => .skip
      | some chunk =>
        match chunk.choices with
        | [] => .skip
        | choice :: _ =>
          match choice.delta with
          | none => .skip
          | some d => .emit d
  else .skip

/-- The deltas handed to the `onChunk` callback by the frame loop of
`StreamChat`, in order; the loop ends at EOF or at `[DONE]`, in both
cases returning a nil error. -/
def streamDeltas (parseChunk : String → Option StreamChunk) :
    List String → List Delta
  | [] => []
  | line :: rest =>
    match classifyLine parseChunk line with
    | .stop => []
    | .skip => streamDeltas parseChunk rest
    | .emit d => d :: streamDeltas parseChunk rest

/-! ## Channel layer

The `onChunk` closure of `Client.StreamChatWithChannel` (client.go:349)
filters empty content and reasoning deltas, forwards the rest over
bounded channels with a 100ms try-send (a send that times out is
dropped), and — when `StreamChat` returns no error — pushes the empty
string on the content channel as the end-of-turn sentinel.  `dropAt i`
says whether the try-send of the content of delta number `i` timed out.
-/

/-- The strings delivered on the content channel for the deltas from
number `i` on: the non-empty content fields, minus the ones whose
bounded send timed out. -/
def contentSendsFrom (dropAt : Nat → Bool) : Nat → List Delta → List String
  | _, [] => []
  | i, d :: rest =>
    if d.content ≠ "" ∧ ¬ dropAt i then
      d.content :: contentSendsFrom dropAt (i + 1) rest
    else contentSendsFrom dropAt (i + 1) rest

/-- The strings actually delivered on the content channel while the
stream is open: the non-empty content fields of the deltas, minus the
ones whose bounded send timed out. -/
def contentSends (deltas : List Delta) (dropAt : Nat → Bool) : List String :=
  contentSendsFrom dropAt 0 deltas

/-- The full content-channel history of one
`StreamChatWithChannel` call: the delivered deltas, then — on a nil
`StreamChat` error — the empty-string sentinel (on a stream error the
error goes to the error channel instead and no sentinel is sent). -/
def contentChannel (deltas : List Delta) (dropAt : Nat → Bool)
    (streamErr : Bool) : List String :=
  contentSends deltas dropAt ++ (if streamErr then [] else [""])

/-! ## Tool registry

From `internal/mcp/handler.go` and `internal/mcp/protocol.go`.  A tool's
`Execute` returns a Go `interface{}` value or an error, or panics; the
`recover` installed around the call turns a panic into the zero return
values (nil result, nil error).
-/

/-- A Go `interface{}` result value, as far as `HandleCallTool` inspects
it: the nil interface, a string, or anything else carried by its
`fmt.Sprint` rendering. -/
inductive GoValue where
  | vnil
  | vstr (s : String)
  | vother (rendering : String)
deriving Repr, DecidableEq

/-- `fmt.Sprint` on a `GoValue`; the nil interface renders as
`<nil>`. -/
def goSprint : GoValue → String
  | .vnil => "<nil>"
  | .vstr s => s
  | .vother r => r

/-- The argument map handed to `Execute` (`map[string]interface{}`,
values kept as strings). -/
def ArgsMap := List (String × String)

/-- How one `Execute` call behaves on given arguments. -/
inductive ExecOutcome where
  | done (v : GoValue)
  | failed (e : String)
  | panicked
deriving Repr, DecidableEq

/-- One registered tool: its name and the behaviour of its `Execute`. -/
structure ToolSpec where
  name : String
  exec : ArgsMap → ExecOutcome

/-- `ToolRegistry`: the registered tools (the Go map, as a list keyed by
name). -/
def ToolRegistry := List ToolSpec

/-- `ToolRegistry.GetTool` (handler.go:40). -/
def GetTool (reg : ToolRegistry) (name : String) : Option ToolSpec :=
  reg.find? (fun t => t.name = name)

/-- `CallToolRequest` of `protocol.go`. -/
structure CallToolRequest where
  name : String
  arguments : ArgsMap

/-- `ToolResultContent` of `protocol.go`. -/
structure ToolResultContent where
  type : String
  text : String
deriving Repr, DecidableEq

/-- `CallToolResult` of `protocol.go`. -/
structure CallToolResult where
  content : List ToolResultContent
deriving Repr, DecidableEq

/-- `ToolRegistry.HandleCallTool` (handler.go:58).  An unknown tool and
a failing `Execute` are errors; a panicking `Execute` is recovered into
the zero values, so the nil result flows on to `fmt.Sprint` and the call
reports success with text `<nil>`. -/
def HandleCallTool (reg : ToolRegistry) (req : CallToolRequest) :
    Except String CallToolResult :=
  match GetTool reg req.name with
  | none => .error ("工具未找到: " ++ req.name)
  | some tool =>
    match tool.exec req.arguments with
    | .failed e => .error ("工具执行失败: " ++ e)
    | .panicked =>
      .ok { content := [{ type := "text", text := goSprint .vnil }] }
    | .done v =>
      .ok { content := [{ type := "text", text := goSprint v }] }

/-! ## ToolManager

The `ToolManager` wrapper of the TUI package (`HandleToolCalls`,
part_017 of the sources, lines 108–141).  `json.Unmarshal` of the
argument string is the environment parameter `parseArgs`; when it fails
the raw string is passed under the key `"input"`.
-/

/-- The `CallToolRequest` built by `HandleToolCalls` for one call. -/
def requestOfCall (parseArgs : String → Option ArgsMap) (call : ToolCall) :
    CallToolRequest :=
  { name := call.function.name
  , arguments :=
      match parseArgs call.function.arguments with
      | some m => m
      | none => [("input", call.function.arguments)] }

/-- `ToolManager.HandleToolCalls`: execute the calls in order; the first
error aborts the whole batch (discarding the messages already built); a
successful call contributes one `role "tool"` message when the result
has content. -/
def HandleToolCalls (parseArgs : String → Option ArgsMap)
    (reg : ToolRegistry) : List ToolCall → Except String (List ApiMessage)
  | [] => .ok []
  | call :: rest =>
    match HandleCallTool reg (requestOfCall parseArgs call) with
    | .error e => .error e
    | .ok result =>
      match HandleToolCalls parseArgs reg rest with
      | .error e => .error e
      | .ok msgs =>
        match result.content with
        | [] => .ok msgs
        | c :: _ => .ok (ToolResultMessage call.id c.text :: msgs)

/-! ## Conversation loop

The message-handling cases of `Model.Update` (`internal/tui/model.go`
and part_017 of the sources), restricted to the state the committed API
conversation depends on: `apiMessages`, `pendingToolCalls`,
`currentResp`, `currentThink` and the `thinking` flag.  The viewport /
textarea rendering state and the parallel display-message list
(`m.messages`) are cosmetic and not modelled.

`checkStream` turns each value read from the content channel into a
Bubble Tea message: the empty string becomes `CheckStreamMsg`, anything
else `StreamChunkMsg`; values from the reasoning and tool-call channels
become `StreamChunkMsg{Reasoning:}` and `ToolCallMsg`.  The
`executePendingTools` command and the `ToolResultMsg` it produces are
folded into the `CheckStreamMsg` handling (the driver processes them
back to back), and `continueStream`'s state resets are applied with
them.
-/

/-- The stream-side Bubble Tea messages consumed by `Model.Update`
during one turn. -/
inductive StreamMsg where
  | chunkMsg (s : String)
  | reasoningMsg (s : String)
  | toolCallMsg (cs : List ToolCall)
  | checkStreamMsg
  | streamErrMsg (e : String)
deriving Repr, DecidableEq

/-- `Model.checkStream` (part_017:755): interpret one value from the
content channel. -/
def interpretChunk (s : String) : StreamMsg :=
  if s = "" then .checkStreamMsg else .chunkMsg s

/-- The loop-relevant fields of `tui.Model`. -/
structure LoopState where
  apiMessages : List ApiMessage
  pendingToolCalls : List ToolCall
  currentResp : String
  currentThink : String
  thinking : Bool
deriving Repr, DecidableEq

/-- A fresh model about to stream an answer to `input`:
`Model.startStream` (part_017:711) appends the user message and clears
the turn buffers. -/
def startState (history : List ApiMessage) (input : String) : LoopState :=
  { apiMessages := history ++ [TextMessage "user" input]
  , pendingToolCalls := []
  , currentResp := ""
  , currentThink := ""
  , thinking := true }

/-- One `Model.Update` step on a stream message (part_017:231, cases
`StreamChunkMsg`, `ToolCallMsg`, `CheckStreamMsg`, `ToolResultMsg`,
`StreamErrorMsg`). -/
def updateStep (parseArgs : String → Option ArgsMap) (reg : ToolRegistry)
    (st : LoopState) : StreamMsg → LoopState
  | .chunkMsg s => { st with currentResp := st.currentResp ++ s }
  | .reasoningMsg s => { st with currentThink := st.currentThink ++ s }
  | .toolCallMsg cs =>
    { st with
        pendingToolCalls := st.pendingToolCalls ++ cs
      , apiMessages := st.apiMessages ++ [ToolCallMessage cs] }
  | .checkStreamMsg =>
    if st.pendingToolCalls.isEmpty then
      if st.currentResp ≠ "" then
        { st with
            thinking := false
          , apiMessages := st.apiMessages ++ [TextMessage "assistant" st.currentResp]
          , currentResp := ""
          , currentThink := "" }
      else { st with thinking := false }
    else
      match HandleToolCalls parseArgs reg st.pendingToolCalls with
      | .ok resultMessages =>
        { st with
            apiMessages := st.apiMessages ++ resultMessages
          , pendingToolCalls := []
          , thinking := true
          , currentResp := ""
          , currentThink := "" }
      | .error e =>
        { st with
            apiMessages := st.apiMessages ++ [TextMessage "system" ("工具执行失败: " ++ e)]
          , pendingToolCalls := []
          , thinking := true
          , currentResp := ""
          , currentThink := "" }
  | .streamErrMsg _ => { st with thinking := false }

/-- Run the loop over a sequence of stream messages. -/
def runLoop (parseArgs : String → Option ArgsMap) (reg : ToolRegistry)
    (st : LoopState) (msgs : List StreamMsg) : LoopState :=
  msgs.foldl (updateStep parseArgs reg) st

/-! ## Turn alignment

The protocol invariant of §3/§8 of the design: in a committed history,
every assistant message carrying tool calls is immediately followed by
exactly one `role "tool"` message per call, in call order, each linked
by `tool_call_id` to the corresponding call.
-/

/-- A purely text-bearing stream message (one that leaves the committed
history and the pending tool calls untouched). -/
def isTextMsg : StreamMsg → Bool
  | .chunkMsg _ => true
  | .reasoningMsg _ => true
  | _ => false

/-- Modelled from the spec: the Tool-Call Accumulator of §4.1.  "A
fragment for tool-call id X is merged by string-concatenating its
argument fragment onto any prior fragment for X; the function name, once
set for an id, is never overwritten."  This is the merge the claim
describes; the source has no counterpart to it (fragments flow through
`StreamChat` and the `ToolCallMsg` case verbatim), and the definition
exists to be compared against what the loop actually accumulates. -/
def mergeFragmentsStep (acc : List ToolCall) (frag : ToolCall) : List ToolCall :=
  if acc.any (fun c => c.id = frag.id) then
    acc.map (fun c =>
      if c.id = frag.id then
        { c with function :=
          { name := if c.function.name = "" then frag.function.name else c.function.name
          , arguments := c.function.arguments ++ frag.function.arguments } }
      else c)
  else acc ++ [frag]

/-- Modelled from the spec: merge a fragment sequence into complete
calls (see `mergeFragmentsStep`). -/
def mergeToolCallFragments (frags : List ToolCall) : List ToolCall :=
  frags.foldl mergeFragmentsStep []

/-- Does this run of messages answer exactly this batch of calls, in
order? -/
def batchMatches : List ToolCall → List ApiMessage → Bool
  | [], [] => true
  | call :: cs, m :: ms =>
    if m.role = "tool" ∧ m.toolCallId = call.id then batchMatches cs ms else false
  | _, _ => false

/-- The turn-alignment scan.  The first argument is the batch of tool
calls whose results are still owed by the immediately preceding
assistant message: while it is non-empty, the next message must be the
`role "tool"` answer to its head; in scan mode (no results owed) a
`role "tool"` message is a violation, and an assistant message carrying
tool calls opens a new owed batch. -/
def turnAlignedGo : List ToolCall → List ApiMessage → Bool
  | [], [] => true
  | _ :: _, [] => false
  | [], m :: rest =>
    if m.role = "tool" then false
    else if m.role = "assistant" ∧ m.toolCalls ≠ [] then
      turnAlignedGo m.toolCalls rest
    else turnAlignedGo [] rest
  | call :: cs, m :: rest =>
    if m.role = "tool" ∧ m.toolCallId = call.id then turnAlignedGo cs rest
    else false

/-- Turn alignment of a message list: each assistant message with tool
calls is immediately followed by exactly one `role "tool"` result per
call, in call order, each linked by `tool_call_id`; a `role "tool"`
message outside such a batch violates the invariant. -/
def turnAligned (l : List ApiMessage) : Bool :=
  turnAlignedGo [] l

/-! ## Concrete fixtures

Sample environments, registries, calls and configurations used by the
witness and counterexample theorems below.
-/

/-- The empty string concatenated, for stating what a buffer accumulates
(defined recursively so it evaluates by kernel reduction). -/
def strConcat : List String → String
  | [] => ""
  | s :: rest => s ++ strConcat rest

/-- A sample `json.Unmarshal` environment for the stream-decoder
witnesses: exactly the payload `good` decodes, to a chunk with one text
delta. -/
def sampleParse : String → Option StreamChunk := fun s =>
  if s = "good" then
    some { choices := [{ delta := some { content := "hi", reasoningContent := "", toolCalls := [] } }] }
  else none

/-- The concrete configuration for the C7 witness: two retries, the
default delays and status list. -/
def cfgTwoRetries : RetryConfig :=
  { maxRetries := 2
  , initialDelay := 1
  , maxDelay := 30
  , backoffMultiplier := 2
  , retryableStatusCodes := [408, 429, 500, 502, 503, 504]
  , retryableErrors := some (fun _ => true) }

/-- An argument parser that rejects every argument string (the loop
fixtures never rely on parsed arguments). -/
def parseNone : String → Option ArgsMap := fun _ => none

/-- A registry with one tool `t` that always succeeds with the text
`r`. -/
def regOk : ToolRegistry := [{ name := "t", exec := fun _ => .done (.vstr "r") }]

/-- A registry with one tool `bad` whose execution always fails. -/
def regFail : ToolRegistry := [{ name := "bad", exec := fun _ => .failed "boom" }]

/-- Two complete calls for tool `t`, as one stream delta batch would
carry them. -/
def callOne : ToolCall := { id := "id1", type := "function", function := { name := "t", arguments := "" } }

/-- See `callOne`. -/
def callTwo : ToolCall := { id := "id2", type := "function", function := { name := "t", arguments := "" } }

/-- A call for the failing tool. -/
def callBad : ToolCall := { id := "cb1", type := "function", function := { name := "bad", arguments := "" } }

/-- The first argument fragment of a split tool call: the id and the
function name arrive with the first piece of the argument string. -/
def fragOne : ToolCall := { id := "x", type := "function", function := { name := "t", arguments := "ar" } }

/-- The second argument fragment for the same id: no name, the rest of
the argument string. -/
def fragTwo : ToolCall := { id := "x", type := "", function := { name := "", arguments := "gs" } }

/-- Two content deltas for the channel-layer counterexample. -/
def deltaA : Delta := { content := "a", reasoningContent := "", toolCalls := [] }

/-- See `deltaA`. -/
def deltaB : Delta := { content := "b", reasoningContent := "", toolCalls := [] }

/-- A path environment where `filepath.Abs` is the identity (all inputs
already absolute) and no path exists yet (so symlink evaluation reports
not-exist and falls back to the absolute path). -/
def envAbs : PathEnv := { abs := fun s => s, eval := fun _ => .notExist }

/-- A file-engine configuration with the single allowed root `/a`. -/
def cfgRootA : FileEngineConfig :=
  { allowedRoots := ["/a"]
  , blacklistedExts := [".exe", ".dll", ".so", ".dylib", ".bin"]
  , maxFileSize := 10 * 1024 * 1024
  , enableCache := true
  , backupDir := "/b" }

/-- An engine state holding one file `/ab` (a sibling of the root `/a`,
not inside it) with content `z`, cache disabled. -/
def stSibling : EngineState := { disk := [("/ab", "z")], cache := none }

/-- A write environment with no injected faults, a constant hash and a
fixed timestamp. -/
def wenvOk : WriteEnv :=
  { readBackupSourceFails := false
  , mkdirFails := false
  , writeBackupFails := false
  , writeTempFails := false
  , renameFails := false
  , hashHex := fun _ => "00"
  , timestamp := "20240101-000000" }

/-! ## Theorems: tool registry -/

/-- C9: if a registered tool's `Execute` panics, `ToolRegistry.HandleCallTool`
recovers the panic and returns a successful `CallToolResult` (nil error)
whose single text content is the string `<nil>` — the `fmt.Sprint`
rendering of the recovered zero-value result — rather than reporting the
panic as a tool failure. -/
theorem C9_panic_recovered_as_nil_success (reg : ToolRegistry)
    (req : CallToolRequest) (t : ToolSpec)
    (hfind : GetTool reg req.name = some t)
    (hpanic : t.exec req.arguments = .panicked) :
    HandleCallTool reg req =
      .ok { content := [{ type := "text", text := "<nil>" }] } := by
  unfold HandleCallTool
  rw [hfind]
  dsimp only
  rw [hpanic]
  rfl

/-- Witness for C9 at a concrete one-tool registry whose tool panics on
every input. -/
theorem C9_witness :
    HandleCallTool [{ name := "p", exec := fun _ => .panicked }]
        { name := "p", arguments := [] } =
      .ok { content := [{ type := "text", text := "<nil>" }] } :=
  C9_panic_recovered_as_nil_success _ _ { name := "p", exec := fun _ => .panicked }
    rfl rfl

/-! ## Theorems: stream decoder -/

/-- A `data: ` frame whose payload is neither `[DONE]` nor valid JSON is
skipped by the loop body. -/
theorem classifyLine_malformed (parseChunk : String → Option StreamChunk)
    (f : String)
    (h1 : strStartsWith (strTrimSpace f) "data: " = true)
    (h2 : strDrop (strTrimSpace f) 6 ≠ "[DONE]")
    (h3 : parseChunk (strDrop (strTrimSpace f) 6) = none) :
    classifyLine parseChunk f = .skip := by
  unfold classifyLine
  simp only [h1, if_true, h3]
  rw [if_neg h2]

/-- C8: a frame whose `data: ` payload is not valid JSON is skipped as a
no-op — the decoded delta sequence is the same as if the frame had not
been sent — and the loop keeps reading subsequent frames; the stream
terminates (normally, with a nil error) as soon as the literal
`data: [DONE]` frame is read, ignoring everything after it. -/
theorem C8_malformed_frame_skipped (parseChunk : String → Option StreamChunk)
    (pre post rest : List String) (f df : String)
    (h1 : strStartsWith (strTrimSpace f) "data: " = true)
    (h2 : strDrop (strTrimSpace f) 6 ≠ "[DONE]")
    (h3 : parseChunk (strDrop (strTrimSpace f) 6) = none)
    (h4 : strStartsWith (strTrimSpace df) "data: " = true)
    (h5 : strDrop (strTrimSpace df) 6 = "[DONE]") :
    streamDeltas parseChunk (pre ++ f :: post) = streamDeltas parseChunk (pre ++ post) ∧
    streamDeltas parseChunk (df :: rest) = [] := by
  constructor
  · induction pre with
    | nil =>
      simp only [List.nil_append, streamDeltas,
        classifyLine_malformed parseChunk f h1 h2 h3]
    | cons a pre ih =>
      simp only [List.cons_append, streamDeltas]
      cases classifyLine parseChunk a with
      | stop => rfl
      | skip => exact ih
      | emit d => exact congrArg (d :: ·) ih
  · have hstop : classifyLine parseChunk df = .stop := by
      unfold classifyLine
      simp only [h4, if_true, h5]
    simp only [streamDeltas, hstop]

/-- Witness for C8: a malformed frame between two good frames changes
nothing, and a `[DONE]` frame ends the stream. -/
theorem C8_witness :
    streamDeltas sampleParse ["data: good", "data: bad", "data: good"] =
      streamDeltas sampleParse ["data: good", "data: good"] ∧
    streamDeltas sampleParse ["data: [DONE]", "data: good"] = [] :=
  C8_malformed_frame_skipped sampleParse ["data: good"] ["data: good"]
    ["data: good"] "data: bad" "data: [DONE]"
    (by decide) (by decide) (by decide) (by decide) (by decide)

/-! ## Theorems: channel layer -/

/-- Every content string delivered for an open stream is non-empty. -/
theorem contentSendsFrom_ne_empty (dropAt : Nat → Bool) :
    ∀ (i : Nat) (deltas : List Delta) (s : String),
      s ∈ contentSendsFrom dropAt i deltas → s ≠ "" := by
  intro i deltas
  induction deltas generalizing i with
  | nil => intro s hs; simp [contentSendsFrom] at hs
  | cons d rest ih =>
    intro s hs
    unfold contentSendsFrom at hs
    by_cases hc : d.content ≠ "" ∧ ¬ dropAt i
    · rw [if_pos hc] at hs
      rcases List.mem_cons.mp hs with h | h
      · exact h ▸ hc.1
      · exact ih (i + 1) s h
    · rw [if_neg hc] at hs
      exact ih (i + 1) s hs

/-- C10: on the text-delta channel of `StreamChatWithChannel`, every
delta delivered while the stream is open is a non-empty string (empty
content deltas are filtered out and never forwarded); on normal stream
completion the empty string is sent exactly once, as the final item, and
`checkStream` interprets exactly that sentinel as `CheckStreamMsg`
(turn completion), every other delivered item as a `StreamChunkMsg`
text delta. -/
theorem C10_sentinel (deltas : List Delta) (dropAt : Nat → Bool) :
    (∀ s ∈ contentSends deltas dropAt, s ≠ "") ∧
    (contentChannel deltas dropAt false).count "" = 1 ∧
    (contentChannel deltas dropAt false).map interpretChunk =
      (contentSends deltas dropAt).map StreamMsg.chunkMsg ++
        [StreamMsg.checkStreamMsg] := by
  have hne : ∀ s ∈ contentSends deltas dropAt, s ≠ "" :=
    fun s hs => contentSendsFrom_ne_empty dropAt 0 deltas s hs
  refine ⟨hne, ?_, ?_⟩
  · unfold contentChannel
    rw [if_neg (by decide)]
    rw [List.count_append]
    have h0 : (contentSends deltas dropAt).count "" = 0 := by
      rw [List.count_eq_zero]
      intro hmem
      exact hne "" hmem rfl
    rw [h0]
    rfl
  · unfold contentChannel
    rw [if_neg (by decide)]
    rw [List.map_append]
    have hmap : (contentSends deltas dropAt).map interpretChunk =
        (contentSends deltas dropAt).map StreamMsg.chunkMsg := by
      apply List.map_congr_left
      intro s hs
      unfold interpretChunk
      rw [if_neg (hne s hs)]
    rw [hmap]
    rfl
/-! ## Theorems: retrying transport -/

/-- A status on the configured list makes `shouldRetryStatus` true. -/
theorem shouldRetryStatus_of_mem (cfg : RetryConfig) (code : Nat)
    (h : code ∈ cfg.retryableStatusCodes) : shouldRetryStatus cfg code = true := by
  unfold shouldRetryStatus
  rw [List.any_eq_true]
  exact ⟨code, h, by simp⟩

/-- The capped delay is the minimum of the uncapped delay and the cap. -/
theorem calculateDelay_eq_min (cfg : RetryConfig) (attempt : Nat) :
    calculateDelay cfg attempt =
      min (cfg.initialDelay * cfg.backoffMultiplier ^ (attempt - 1)) cfg.maxDelay := by
  unfold calculateDelay
  rcases le_or_lt (cfg.initialDelay * cfg.backoffMultiplier ^ (attempt - 1)) cfg.maxDelay with h | h
  · rw [if_neg (not_lt.mpr h), min_eq_left h]
  · rw [if_pos h, min_eq_right h.le]

/-- Behaviour of the retry loop from attempt `a + 1` on, when every
attempt is answered with a retryable 500. -/
theorem doAux_all_500 (cfg : RetryConfig) (respOf : Nat → HttpOutcome)
    (h500 : ∀ k, respOf k = .resp 500)
    (hmem : (500 : Nat) ∈ cfg.retryableStatusCodes) :
    ∀ (r a : Nat) (le : Option LastErr),
      doAux cfg respOf (r + 1) (a + 1) le =
        { result := .exhausted cfg.maxRetries (.httpStatus 500)
        , attempts := r + 1
        , delays := (List.range (r + 1)).map (fun i => calculateDelay cfg (a + 1 + i)) } := by
  have hs := shouldRetryStatus_of_mem cfg 500 hmem
  have hrange1 : List.range 1 = [0] := rfl
  intro r
  induction r with
  | zero =>
    intro a le
    unfold doAux
    rw [h500 (a + 1)]
    dsimp only
    rw [hs]
    unfold doAux
    simp [hrange1]
  | succ n ih =>
    intro a le
    conv in doAux cfg respOf (n + 1 + 1) (a + 1) le => unfold doAux
    rw [h500 (a + 1)]
    dsimp only
    rw [hs]
    rw [ih (a + 1)]
    rw [if_pos (show (true = true) from rfl)]
    refine congrArg₂ (DoTrace.mk _) rfl ?_
    conv_rhs => rw [List.range_succ_eq_map, List.map_cons, List.map_map]
    rw [if_pos (Nat.succ_pos a), List.singleton_append]
    congr 1
    dsimp only
    apply List.map_congr_left
    intro i _
    simp only [Function.comp_apply]
    congr 1
    omega

/-- `Do` against a server that always answers 500: all attempts are
spent, with the capped exponential sleeps between them. -/
theorem Do_all_500 (cfg : RetryConfig) (respOf : Nat → HttpOutcome)
    (h500 : ∀ k, respOf k = .resp 500)
    (hmem : (500 : Nat) ∈ cfg.retryableStatusCodes) :
    Do cfg respOf =
      { result := .exhausted cfg.maxRetries (.httpStatus 500)
      , attempts := cfg.maxRetries + 1
      , delays := (List.range cfg.maxRetries).map
          (fun i => calculateDelay cfg (i + 1)) } := by
  have hs := shouldRetryStatus_of_mem cfg 500 hmem
  unfold Do
  have key : ∀ M, doAux cfg respOf (M + 1) 0 none =
      { result := .exhausted cfg.maxRetries (.httpStatus 500)
      , attempts := M + 1
      , delays := (List.range M).map (fun i => calculateDelay cfg (i + 1)) } := by
    intro M
    cases M with
    | zero =>
      unfold doAux
      rw [h500 0]
      dsimp only
      rw [hs]
      unfold doAux
      simp
    | succ n =>
      conv in doAux cfg respOf (n + 1 + 1) 0 none => unfold doAux
      rw [h500 0]
      dsimp only
      rw [hs]
      rw [doAux_all_500 cfg respOf h500 hmem n 0]
      rw [if_pos (show (true = true) from rfl)]
      refine congrArg₂ (DoTrace.mk _) rfl ?_
      rw [if_neg (by omega), List.nil_append]
      apply List.map_congr_left
      intro i _
      congr 1
      omega
  exact key cfg.maxRetries

/-- C7: with `MaxRetries = N` and every attempt answered with HTTP 500
(a status on the retryable list), `RetryableHTTPClient.Do` makes exactly
`N + 1` request attempts; the sleep before retry attempt `k` is
`initial_delay * multiplier^(k-1)` capped at `max_delay`, so the total
wait is at most `N` times the cap; and after exhausting the retries the
result wraps the last observed error (`HTTP 500`) together with the
configured retry count. -/
theorem C7_backoff_bound (cfg : RetryConfig) (respOf : Nat → HttpOutcome) (N : Nat)
    (hN : cfg.maxRetries = N)
    (h500 : ∀ k, respOf k = .resp 500)
    (hmem : (500 : Nat) ∈ cfg.retryableStatusCodes) :
    (Do cfg respOf).attempts = N + 1 ∧
    (Do cfg respOf).delays = (List.range N).map
      (fun i => min (cfg.initialDelay * cfg.backoffMultiplier ^ i) cfg.maxDelay) ∧
    (Do cfg respOf).delays.sum ≤ (N : ℚ) * cfg.maxDelay ∧
    (Do cfg respOf).result = .exhausted N (.httpStatus 500) := by
  have hDo := Do_all_500 cfg respOf h500 hmem
  have hform : ∀ i : Nat, calculateDelay cfg (i + 1) =
      min (cfg.initialDelay * cfg.backoffMultiplier ^ i) cfg.maxDelay := by
    intro i
    rw [calculateDelay_eq_min]
    norm_num
  refine ⟨by rw [hDo, hN], ?_, ?_, by rw [hDo, hN]⟩
  · rw [hDo, hN]
    exact List.map_congr_left (fun i _ => hform i)
  · rw [hDo]
    dsimp only
    have hle : ∀ x ∈ (List.range cfg.maxRetries).map (fun i => calculateDelay cfg (i + 1)),
        x ≤ cfg.maxDelay := by
      intro x hx
      rcases List.mem_map.mp hx with ⟨i, _, rfl⟩
      rw [hform i]
      exact min_le_right _ _
    calc ((List.range cfg.maxRetries).map (fun i => calculateDelay cfg (i + 1))).sum
        ≤ ((List.range cfg.maxRetries).map
            (fun i => calculateDelay cfg (i + 1))).length • cfg.maxDelay :=
          List.sum_le_card_nsmul _ cfg.maxDelay hle
      _ = (N : ℚ) * cfg.maxDelay := by
          rw [List.length_map, List.length_range, nsmul_eq_mul, hN]

/-- Witness for C7: two configured retries against a constant-500 server
make three attempts with sleeps 1s and 2s. -/
theorem C7_witness :
    (Do cfgTwoRetries (fun _ => .resp 500)).attempts = 2 + 1 ∧
    (Do cfgTwoRetries (fun _ => .resp 500)).delays = (List.range 2).map
      (fun i => min (cfgTwoRetries.initialDelay * cfgTwoRetries.backoffMultiplier ^ i)
        cfgTwoRetries.maxDelay) ∧
    (Do cfgTwoRetries (fun _ => .resp 500)).delays.sum ≤ ((2 : Nat) : ℚ) * cfgTwoRetries.maxDelay ∧
    (Do cfgTwoRetries (fun _ => .resp 500)).result = .exhausted 2 (.httpStatus 500) :=
  C7_backoff_bound cfgTwoRetries (fun _ => .resp 500) 2 rfl (fun _ => rfl) (by decide)
/-! ## Theorems: conversation loop -/

/-- Running the loop over concatenated event lists runs them in
sequence. -/
theorem runLoop_append (p : String → Option ArgsMap) (reg : ToolRegistry)
    (st : LoopState) (a b : List StreamMsg) :
    runLoop p reg st (a ++ b) = runLoop p reg (runLoop p reg st a) b :=
  List.foldl_append _ _ _ _

/-- A text-bearing message changes neither the committed history nor the
pending calls. -/
theorem updateStep_text (p : String → Option ArgsMap) (reg : ToolRegistry)
    (st : LoopState) (e : StreamMsg) (h : isTextMsg e = true) :
    (updateStep p reg st e).apiMessages = st.apiMessages ∧
    (updateStep p reg st e).pendingToolCalls = st.pendingToolCalls := by
  cases e with
  | chunkMsg s => exact ⟨rfl, rfl⟩
  | reasoningMsg s => exact ⟨rfl, rfl⟩
  | toolCallMsg cs => simp [isTextMsg] at h
  | checkStreamMsg => simp [isTextMsg] at h
  | streamErrMsg e => simp [isTextMsg] at h

/-- Text-bearing messages leave the committed history and the pending
calls unchanged. -/
theorem runLoop_text_events (p : String → Option ArgsMap) (reg : ToolRegistry) :
    ∀ (evs : List StreamMsg) (st : LoopState),
      (∀ e ∈ evs, isTextMsg e = true) →
      (runLoop p reg st evs).apiMessages = st.apiMessages ∧
      (runLoop p reg st evs).pendingToolCalls = st.pendingToolCalls := by
  intro evs
  induction evs with
  | nil => intro st _; exact ⟨rfl, rfl⟩
  | cons e evs ih =>
    intro st h
    have he := h e (List.mem_cons_self e evs)
    have hrest : ∀ e' ∈ evs, isTextMsg e' = true :=
      fun e' h' => h e' (List.mem_cons_of_mem e h')
    have hstep := updateStep_text p reg st e he
    have htail := ih (updateStep p reg st e) hrest
    exact ⟨htail.1.trans hstep.1, htail.2.trans hstep.2⟩

/-- Consuming a run of content chunks appends their concatenation to the
response buffer and changes nothing else. -/
theorem runLoop_chunk_events (p : String → Option ArgsMap) (reg : ToolRegistry) :
    ∀ (chunks : List String) (st : LoopState),
      runLoop p reg st (chunks.map .chunkMsg) =
        { st with currentResp := st.currentResp ++ strConcat chunks } := by
  intro chunks
  induction chunks with
  | nil =>
    intro st
    show st = { st with currentResp := st.currentResp ++ strConcat [] }
    rw [show strConcat [] = "" from rfl, String.append_empty]
  | cons c chunks ih =>
    intro st
    have h1 : runLoop p reg st ((c :: chunks).map .chunkMsg) =
        runLoop p reg (updateStep p reg st (.chunkMsg c)) (chunks.map .chunkMsg) := rfl
    rw [h1, ih]
    show ({ st with currentResp := (st.currentResp ++ c) ++ strConcat chunks } : LoopState) =
      { st with currentResp := st.currentResp ++ (c ++ strConcat chunks) }
    rw [String.append_assoc]

/-- The full content-channel history, reinterpreted by `checkStream`:
the delivered chunks become `StreamChunkMsg`s and the sentinel becomes
`CheckStreamMsg`. -/
theorem contentChannel_interpret (deltas : List Delta) (dropAt : Nat → Bool) :
    (contentChannel deltas dropAt false).map interpretChunk =
      (contentSends deltas dropAt).map StreamMsg.chunkMsg ++
        [StreamMsg.checkStreamMsg] := by
  unfold contentChannel
  rw [if_neg (by decide), List.map_append]
  have hmap : (contentSends deltas dropAt).map interpretChunk =
      (contentSends deltas dropAt).map StreamMsg.chunkMsg := by
    apply List.map_congr_left
    intro s hs
    unfold interpretChunk
    rw [if_neg (contentSendsFrom_ne_empty dropAt 0 deltas s hs)]
  rw [hmap]
  rfl

/-- Without drops, concatenating the delivered content equals
concatenating all content fields (empty fields contribute nothing). -/
theorem contentSendsFrom_no_drop (dropAt : Nat → Bool) (h : ∀ i, dropAt i = false) :
    ∀ (i : Nat) (deltas : List Delta),
      strConcat (contentSendsFrom dropAt i deltas) =
        strConcat (deltas.map (fun d => d.content)) := by
  intro i deltas
  induction deltas generalizing i with
  | nil => rfl
  | cons d rest ih =>
    show strConcat (contentSendsFrom dropAt i (d :: rest)) =
      d.content ++ strConcat (rest.map (fun d => d.content))
    unfold contentSendsFrom
    by_cases hc : d.content = ""
    · rw [if_neg (by simp [hc])]
      rw [ih (i + 1), hc, String.empty_append]
    · rw [if_pos ⟨hc, by simp [h i]⟩]
      show d.content ++ strConcat (contentSendsFrom dropAt (i + 1) rest) = _
      rw [ih (i + 1)]

/-- C6, corrected: the text of the committed assistant message is
exactly the concatenation of the content deltas actually delivered
through the bounded channel — there is no independent server-side
buffer; `currentResp` is fed from the channel, so a dropped delta is
missing from the committed message.  Only when no content delta is
dropped does the committed text equal the full stream text. -/
theorem C6_committed_text_is_delivered_text (p : String → Option ArgsMap)
    (reg : ToolRegistry) (history : List ApiMessage) (input : String)
    (deltas : List Delta) (dropAt : Nat → Bool)
    (hne : strConcat (contentSends deltas dropAt) ≠ "") :
    (runLoop p reg (startState history input)
        ((contentChannel deltas dropAt false).map interpretChunk)).apiMessages
      = (startState history input).apiMessages ++
          [TextMessage "assistant" (strConcat (contentSends deltas dropAt))] ∧
    ((∀ i, dropAt i = false) →
      strConcat (contentSends deltas dropAt) =
        strConcat (deltas.map (fun d => d.content))) := by
  constructor
  · rw [contentChannel_interpret, runLoop_append, runLoop_chunk_events]
    have hrun : ∀ (s : LoopState), runLoop p reg s [StreamMsg.checkStreamMsg] =
        updateStep p reg s .checkStreamMsg := fun _ => rfl
    rw [hrun]
    simp only [updateStep, startState, List.isEmpty_nil, if_true, String.empty_append]
    rw [if_pos hne]
  · intro hdrop
    exact contentSendsFrom_no_drop dropAt hdrop 0 deltas

/-- Counterexample to C6 as stated: with two content deltas `a` and `b`
and the bounded send of the second timing out, the committed assistant
message is `a`, not the full stream text `ab` — a dropped text delta
does change the content of the committed message. -/
theorem C6_counterexample :
    (runLoop parseNone regOk (startState [] "q")
        ((contentChannel [deltaA, deltaB] (fun i => i = 1) false).map
          interpretChunk)).apiMessages
      = [TextMessage "user" "q", TextMessage "assistant" "a"] ∧
    strConcat ([deltaA, deltaB].map (fun d => d.content)) = "ab" ∧
    ("a" : String) ≠ "ab" := by
  decide

/-- Witness for C6 at a concrete two-delta stream with no drops. -/
theorem C6_witness :
    (runLoop parseNone regOk (startState [] "q")
        ((contentChannel [deltaA, deltaB] (fun _ => false) false).map
          interpretChunk)).apiMessages
      = (startState [] "q").apiMessages ++
          [TextMessage "assistant"
            (strConcat (contentSends [deltaA, deltaB] (fun _ => false)))] ∧
    ((∀ i, (fun (_ : Nat) => false) i = false) →
      strConcat (contentSends [deltaA, deltaB] (fun _ => false)) =
        strConcat ([deltaA, deltaB].map (fun d => d.content))) :=
  C6_committed_text_is_delivered_text parseNone regOk [] "q" [deltaA, deltaB]
    (fun _ => false) (by decide)

/-- C5, corrected: the loop performs no merge at all.  Tool-call
fragments flow through `StreamChat` and the `ToolCallMsg` handler
verbatim: each delta's calls are appended to `pendingToolCalls` as
separate entries with their raw argument strings; fragments sharing an
id are never concatenated and a split call stays split. -/
theorem C5_fragments_appended_verbatim (p : String → Option ArgsMap)
    (reg : ToolRegistry) :
    ∀ (batches : List (List ToolCall)) (st : LoopState),
      (runLoop p reg st (batches.map .toolCallMsg)).pendingToolCalls =
        st.pendingToolCalls ++ batches.flatten := by
  intro batches
  induction batches with
  | nil =>
    intro st
    show st.pendingToolCalls = st.pendingToolCalls ++ List.flatten []
    simp
  | cons b bs ih =>
    intro st
    show (runLoop p reg (updateStep p reg st (.toolCallMsg b))
      (bs.map .toolCallMsg)).pendingToolCalls = _
    rw [ih]
    show (st.pendingToolCalls ++ b) ++ bs.flatten =
      st.pendingToolCalls ++ List.flatten (b :: bs)
    rw [List.flatten_cons, List.append_assoc]

/-- Counterexample to C5 as stated: the argument fragments `ar` and `gs`
for id `x` are kept as two separate pending calls with unmerged argument
strings, while the merge the claim describes would yield the single call
with arguments `args`. -/
theorem C5_counterexample :
    (runLoop parseNone regOk (startState [] "q")
        [.toolCallMsg [fragOne], .toolCallMsg [fragTwo]]).pendingToolCalls
      = [fragOne, fragTwo] ∧
    mergeToolCallFragments [fragOne, fragTwo] =
      [{ id := "x", type := "function"
       , function := { name := "t", arguments := "args" } }] ∧
    ([fragOne, fragTwo] : List ToolCall) ≠
      [{ id := "x", type := "function"
       , function := { name := "t", arguments := "args" } }] := by
  decide

/-- A successful `HandleCallTool` always carries exactly one text
content item. -/
theorem handleCallTool_ok_content (reg : ToolRegistry) (req : CallToolRequest)
    (r : CallToolResult) (h : HandleCallTool reg req = .ok r) :
    ∃ t, r.content = [{ type := "text", text := t }] := by
  unfold HandleCallTool at h
  cases hg : GetTool reg req.name with
  | none => rw [hg] at h; simp at h
  | some tool =>
    rw [hg] at h
    dsimp only at h
    cases he : tool.exec req.arguments with
    | failed e => rw [he] at h; simp at h
    | panicked =>
      rw [he] at h
      simp only [Except.ok.injEq] at h
      exact ⟨goSprint .vnil, by rw [← h]⟩
    | done v =>
      rw [he] at h
      simp only [Except.ok.injEq] at h
      exact ⟨goSprint v, by rw [← h]⟩

/-- When `HandleToolCalls` returns messages at all (no call in the batch
errored), it returns exactly one `role "tool"` message per dispatched
call, in call order, linked by `tool_call_id`. -/
theorem handleToolCalls_ok_batchMatches (p : String → Option ArgsMap)
    (reg : ToolRegistry) :
    ∀ (cs : List ToolCall) (msgs : List ApiMessage),
      HandleToolCalls p reg cs = .ok msgs → batchMatches cs msgs = true := by
  intro cs
  induction cs with
  | nil =>
    intro msgs h
    unfold HandleToolCalls at h
    simp only [Except.ok.injEq] at h
    rw [← h]
    rfl
  | cons call rest ih =>
    intro msgs h
    unfold HandleToolCalls at h
    cases hc : HandleCallTool reg (requestOfCall p call) with
    | error e => rw [hc] at h; simp at h
    | ok result =>
      rw [hc] at h
      dsimp only at h
      cases hr : HandleToolCalls p reg rest with
      | error e => rw [hr] at h; simp at h
      | ok ms =>
        rw [hr] at h
        dsimp only at h
        obtain ⟨t, hct⟩ := handleCallTool_ok_content reg _ result hc
        rw [hct] at h
        simp only [Except.ok.injEq] at h
        rw [← h]
        show batchMatches (call :: rest) (ToolResultMessage call.id t :: ms) = true
        unfold batchMatches
        rw [if_pos ⟨rfl, rfl⟩]
        exact ih ms hr

/-- C4, corrected: a `role "tool"` message linked by the call's
`tool_call_id` is appended for every dispatched call only when every
call in the batch executes without error (then exactly one per call, in
order — `batchMatches`).  The claim's "even on failure" clause does not
hold: a failing call aborts the whole batch (see the counterexample), so
this success-only guarantee is what the code provides. -/
theorem C4_tool_result_per_call_on_success (p : String → Option ArgsMap)
    (reg : ToolRegistry) (cs : List ToolCall) (msgs : List ApiMessage)
    (h : HandleToolCalls p reg cs = .ok msgs) :
    batchMatches cs msgs = true :=
  handleToolCalls_ok_batchMatches p reg cs msgs h

/-- Counterexample to C4 as stated: when the single dispatched call's
tool fails, the loop appends one `role "system"` message carrying the
failure text and no `role "tool"` message linked to the call's id at
all — the dispatched call is left without a tool-result message. -/
theorem C4_counterexample :
    (runLoop parseNone regFail (startState [] "q")
        [.toolCallMsg [callBad], .checkStreamMsg]).apiMessages =
      [TextMessage "user" "q", ToolCallMessage [callBad],
        TextMessage "system" "工具执行失败: 工具执行失败: boom"] ∧
    ((runLoop parseNone regFail (startState [] "q")
        [.toolCallMsg [callBad], .checkStreamMsg]).apiMessages.all
      (fun m => ¬ (m.role = "tool" ∧ m.toolCallId = callBad.id))) = true := by
  decide

/-- Witness for C4 at a concrete two-call batch whose tool succeeds. -/
theorem C4_witness :
    batchMatches [callOne, callTwo]
      [ToolResultMessage "id1" "r", ToolResultMessage "id2" "r"] = true :=
  C4_tool_result_per_call_on_success parseNone regOk [callOne, callTwo]
    [ToolResultMessage "id1" "r", ToolResultMessage "id2" "r"] rfl

/-- Appending a turn-aligned continuation to a turn-aligned history (with
any still-owed batch answered inside the history) stays aligned. -/
theorem turnAlignedGo_append :
    ∀ (h : List ApiMessage) (cs : List ToolCall) (t : List ApiMessage),
      turnAlignedGo cs h = true → turnAlignedGo [] t = true →
      turnAlignedGo cs (h ++ t) = true := by
  intro h
  induction h with
  | nil =>
    intro cs t h1 h2
    cases cs with
    | nil => simpa using h2
    | cons c cs => simp [turnAlignedGo] at h1
  | cons m rest ih =>
    intro cs t h1 h2
    cases cs with
    | nil =>
      rw [List.cons_append]
      unfold turnAlignedGo at h1 ⊢
      by_cases h3 : m.role = "tool"
      · rw [if_pos h3] at h1; cases h1
      · rw [if_neg h3] at h1 ⊢
        by_cases h4 : m.role = "assistant" ∧ m.toolCalls ≠ []
        · rw [if_pos h4] at h1 ⊢
          exact ih m.toolCalls t h1 h2
        · rw [if_neg h4] at h1 ⊢
          exact ih [] t h1 h2
    | cons c cs =>
      rw [List.cons_append]
      unfold turnAlignedGo at h1 ⊢
      by_cases h3 : m.role = "tool" ∧ m.toolCallId = c.id
      · rw [if_pos h3] at h1 ⊢
        exact ih cs t h1 h2
      · rw [if_neg h3] at h1; cases h1

/-- A batch answered exactly by `ms` followed by an aligned continuation
is an aligned continuation of the owing assistant message. -/
theorem batchMatches_turnAlignedGo :
    ∀ (cs : List ToolCall) (ms t : List ApiMessage),
      batchMatches cs ms = true → turnAlignedGo [] t = true →
      turnAlignedGo cs (ms ++ t) = true := by
  intro cs
  induction cs with
  | nil =>
    intro ms t h1 h2
    cases ms with
    | nil => simpa using h2
    | cons m ms => simp [batchMatches] at h1
  | cons c cs ih =>
    intro ms t h1 h2
    cases ms with
    | nil => simp [batchMatches] at h1
    | cons m ms =>
      unfold batchMatches at h1
      rw [List.cons_append]
      unfold turnAlignedGo
      by_cases h3 : m.role = "tool" ∧ m.toolCallId = c.id
      · rw [if_pos h3] at h1 ⊢
        exact ih ms t h1 h2
      · rw [if_neg h3] at h1; cases h1

/-- C3, corrected: the turn-alignment invariant holds for a turn whose
tool calls arrive in a single delta batch and all execute without error:
starting from an aligned history with no pending calls, a turn of text
deltas, one `ToolCallMsg` batch and the end-of-stream check leaves the
committed history aligned — the assistant message carrying the batch is
immediately followed by exactly one `role "tool"` result per call, in
order.  When the calls of one turn arrive split over several
`ToolCallMsg` deltas the invariant fails (see the counterexample), since
the loop appends one assistant tool_calls message per delta and all
results after the last. -/
theorem C3_turn_alignment_single_batch (p : String → Option ArgsMap)
    (reg : ToolRegistry) (st : LoopState) (pre mid : List StreamMsg)
    (cs : List ToolCall) (msgs : List ApiMessage)
    (hAligned : turnAligned st.apiMessages = true)
    (hPending : st.pendingToolCalls = [])
    (hpre : ∀ e ∈ pre, isTextMsg e = true)
    (hmid : ∀ e ∈ mid, isTextMsg e = true)
    (hcs : cs ≠ [])
    (hexec : HandleToolCalls p reg cs = .ok msgs) :
    turnAligned (runLoop p reg st
      (pre ++ .toolCallMsg cs :: (mid ++ [.checkStreamMsg]))).apiMessages
      = true := by
  have h1 := runLoop_text_events p reg pre st hpre
  set st1 := runLoop p reg st pre with hst1
  have hsplit : runLoop p reg st (pre ++ .toolCallMsg cs :: (mid ++ [.checkStreamMsg])) =
      runLoop p reg (updateStep p reg st1 (.toolCallMsg cs)) (mid ++ [.checkStreamMsg]) := by
    rw [runLoop_append]
    rfl
  set st2 := updateStep p reg st1 (.toolCallMsg cs) with hst2
  have hst2Api : st2.apiMessages = st.apiMessages ++ [ToolCallMessage cs] := by
    rw [hst2]
    show st1.apiMessages ++ [ToolCallMessage cs] = _
    rw [h1.1]
  have hst2Pending : st2.pendingToolCalls = cs := by
    rw [hst2]
    show st1.pendingToolCalls ++ cs = cs
    rw [h1.2, hPending, List.nil_append]
  have h3 := runLoop_text_events p reg mid st2 hmid
  set st3 := runLoop p reg st2 mid with hst3
  have hsplit2 : runLoop p reg st2 (mid ++ [.checkStreamMsg]) =
      updateStep p reg st3 .checkStreamMsg := by
    rw [runLoop_append]
    rfl
  have hfinal : (updateStep p reg st3 .checkStreamMsg).apiMessages =
      st.apiMessages ++ (ToolCallMessage cs :: msgs) := by
    have hp3 : st3.pendingToolCalls = cs := h3.2.trans hst2Pending
    have hne : st3.pendingToolCalls.isEmpty = false := by
      rw [hp3]
      cases cs with
      | nil => exact absurd rfl hcs
      | cons c cs => rfl
    show (updateStep p reg st3 .checkStreamMsg).apiMessages = _
    unfold updateStep
    rw [if_neg (by simp [hne])]
    rw [hp3, hexec]
    show st3.apiMessages ++ msgs = _
    rw [h3.1, hst2Api, List.append_assoc]
    rfl
  rw [hsplit, hsplit2]
  unfold turnAligned
  rw [hfinal]
  apply turnAlignedGo_append st.apiMessages [] _ hAligned
  show turnAlignedGo [] (ToolCallMessage cs :: msgs) = true
  unfold turnAlignedGo
  rw [if_neg (by simp [ToolCallMessage])]
  rw [if_pos ⟨rfl, hcs⟩]
  have := batchMatches_turnAlignedGo cs msgs []
    (handleToolCalls_ok_batchMatches p reg cs msgs hexec) rfl
  rw [List.append_nil] at this
  show turnAlignedGo (ToolCallMessage cs).toolCalls msgs = true
  exact this

/-- Counterexample to C3 as stated: two tool calls arriving in two
separate deltas produce two consecutive assistant tool_calls messages,
with both results following the second — the first assistant message
with tool calls is not immediately followed by its tool result, so the
committed history violates the invariant. -/
theorem C3_counterexample :
    turnAligned (runLoop parseNone regOk (startState [] "q")
      [.toolCallMsg [callOne], .toolCallMsg [callTwo],
        .checkStreamMsg]).apiMessages = false := by
  decide

/-- Witness for C3 at a concrete single-batch turn with text deltas
around the batch. -/
theorem C3_witness :
    turnAligned (runLoop parseNone regOk (startState [] "q")
      ([.chunkMsg "h"] ++ .toolCallMsg [callOne, callTwo] ::
        ([.reasoningMsg "m"] ++ [.checkStreamMsg]))).apiMessages = true :=
  C3_turn_alignment_single_batch parseNone regOk (startState [] "q")
    [.chunkMsg "h"] [.reasoningMsg "m"] [callOne, callTwo]
    [ToolResultMessage "id1" "r", ToolResultMessage "id2" "r"]
    (by decide) rfl (by decide) (by decide) (by decide) rfl

/-! ## Theorems: file engine path validation -/

/-- C1, corrected, with "lies outside every configured allowed root"
read as the code implements it: some allowed root must be a *string
prefix* of the symlink-resolved absolute path.  For every path whose
resolved form has no allowed root as a string prefix, or whose
lower-cased extension is blacklisted (and whose symlink evaluation does
not itself error), `ValidatePath`, `ReadFile` and `WriteFile` all return
the `PathNotAllowed` error kind, perform no disk operation, and leave
the engine state untouched.  Under the claim's directory reading the
property fails, because string-prefix containment admits sibling paths
such as `/ab` under the root `/a` (see the counterexample). -/
theorem C1_path_not_allowed (env : PathEnv) (cfg : FileEngineConfig)
    (st : EngineState) (wenv : WriteEnv) (path content : String)
    (forceRefresh backup : Bool) (now : Nat)
    (hres : env.eval (env.abs path) ≠ .evalFailed)
    (hbad : rootAllowed env cfg (resolvedPath env path) = false ∨
            extBlacklisted cfg (resolvedPath env path) = true) :
    ValidatePath env cfg path = .error .pathNotAllowed ∧
    (ReadFile env cfg st path forceRefresh now).1 = .error .pathNotAllowed ∧
    (ReadFile env cfg st path forceRefresh now).2.1 = st ∧
    (ReadFile env cfg st path forceRefresh now).2.2 = [] ∧
    (WriteFile env cfg wenv st path content backup now).result =
      .error .pathNotAllowed ∧
    (WriteFile env cfg wenv st path content backup now).state = st ∧
    (WriteFile env cfg wenv st path content backup now).trace = [] := by
  have hv : ValidatePath env cfg path = .error .pathNotAllowed := by
    unfold ValidatePath
    have hbody :
        (if rootAllowed env cfg (resolvedPath env path) then
          if extBlacklisted cfg (resolvedPath env path) then
            (.error .pathNotAllowed : Except FileError Unit)
          else .ok ()
         else .error .pathNotAllowed) = .error .pathNotAllowed := by
      rcases hbad with hb | hb
      · rw [if_neg (by simp [hb])]
      · by_cases hroot : rootAllowed env cfg (resolvedPath env path) = true
        · rw [if_pos hroot, if_pos hb]
        · rw [if_neg (by simp at hroot ⊢; exact hroot)]
    cases hr : env.eval (env.abs path) with
    | evalFailed => exact absurd hr hres
    | notExist => exact hbody
    | resolved rp => exact hbody
  have hread : ReadFile env cfg st path forceRefresh now =
      (.error .pathNotAllowed, st, []) := by
    unfold ReadFile
    rw [hv]
  have hwrite : WriteFile env cfg wenv st path content backup now =
      ⟨.error .pathNotAllowed, st, [], [st.disk]⟩ := by
    unfold WriteFile
    rw [hv]
  exact ⟨hv, by rw [hread], by rw [hread], by rw [hread],
    by rw [hwrite], by rw [hwrite], by rw [hwrite]⟩

/-- Counterexample to C1 as stated: the path `/ab` lies outside the
single allowed root `/a` in the directory sense, yet `ValidatePath`
accepts it (`strings.HasPrefix "/ab" "/a"` holds) and `ReadFile` goes on
to stat and read it from disk, returning its content instead of
`PathNotAllowed`. -/
theorem C1_counterexample :
    outsideAllRootsDir envAbs cfgRootA "/ab" = true ∧
    ValidatePath envAbs cfgRootA "/ab" = .ok () ∧
    (ReadFile envAbs cfgRootA stSibling "/ab" false 0).1 = .ok "z" ∧
    (ReadFile envAbs cfgRootA stSibling "/ab" false 0).2.2 =
      [.statOp "/ab", .readOp "/ab"] :=
  ⟨by decide, rfl, rfl, rfl⟩

/-- Witness for C1: the path `/etc/passwd` has no allowed root as a
prefix, so validation, read and write all refuse it without touching
disk. -/
theorem C1_witness :
    ValidatePath envAbs cfgRootA "/etc/passwd" = .error .pathNotAllowed ∧
    (ReadFile envAbs cfgRootA stSibling "/etc/passwd" false 0).1 =
      .error .pathNotAllowed ∧
    (ReadFile envAbs cfgRootA stSibling "/etc/passwd" false 0).2.1 = stSibling ∧
    (ReadFile envAbs cfgRootA stSibling "/etc/passwd" false 0).2.2 = [] ∧
    (WriteFile envAbs cfgRootA wenvOk stSibling "/etc/passwd" "x" true 0).result =
      .error .pathNotAllowed ∧
    (WriteFile envAbs cfgRootA wenvOk stSibling "/etc/passwd" "x" true 0).state =
      stSibling ∧
    (WriteFile envAbs cfgRootA wenvOk stSibling "/etc/passwd" "x" true 0).trace = [] :=
  C1_path_not_allowed envAbs cfgRootA stSibling wenvOk "/etc/passwd" "x"
    false true 0 (by decide) (Or.inl (by decide))

/-! ## Theorems: file engine atomic write

The string lemmas establish that the temp file and the backup file are
never the write target itself, so every pre-rename disk state still
holds the target's old content.
-/

/-- `takeWhile` stops no later than a failing element appended after
`u`. -/
theorem takeWhile_append_stop (p : Char → Bool) (y : Char) (hy : p y = false) :
    ∀ (u v : List Char), (u ++ y :: v).takeWhile p = u.takeWhile p := by
  intro u v
  induction u with
  | nil => simp [List.takeWhile, hy]
  | cons a u ih =>
    rw [List.cons_append]
    unfold List.takeWhile
    rw [ih]

/-- `pathBase` only sees the part after the last slash. -/
theorem pathBase_concat (x b : String) : pathBase (x ++ "/" ++ b) = pathBase b := by
  unfold pathBase
  have hdata : (x ++ "/" ++ b).data = (x.data ++ ['/']) ++ b.data := by
    rw [String.data_append, String.data_append]
  rw [hdata, List.reverse_append, List.reverse_append]
  have : (['/'] : List Char).reverse ++ x.data.reverse = '/' :: x.data.reverse := rfl
  rw [this, takeWhile_append_stop _ '/' (by decide)]

/-- No element of `takeWhile p l` can falsify `p`. -/
theorem mem_takeWhile_pred (p : Char → Bool) :
    ∀ (l : List Char) (c : Char), c ∈ l.takeWhile p → p c = true := by
  intro l
  induction l with
  | nil => intro c hc; simp [List.takeWhile] at hc
  | cons a l ih =>
    intro c hc
    unfold List.takeWhile at hc
    cases hp : p a with
    | false => rw [hp] at hc; simp at hc
    | true =>
      rw [hp] at hc
      rcases List.mem_cons.mp hc with h | h
      · rw [h]; exact hp
      · exact ih c h

/-- The base of a path contains no slash. -/
theorem pathBase_no_slash (s : String) : '/' ∉ (pathBase s).data := by
  intro hmem
  unfold pathBase at hmem
  have h1 : '/' ∈ (s.data.reverse.takeWhile (fun c => decide (c ≠ '/'))) := by
    have := List.mem_reverse.mp hmem
    exact this
  have := mem_takeWhile_pred _ _ _ h1
  simp at this

/-- `takeWhile` keeps a list all of whose elements satisfy `p`. -/
theorem takeWhile_eq_self_of_all (p : Char → Bool) :
    ∀ (l : List Char), (∀ c ∈ l, p c = true) → l.takeWhile p = l := by
  intro l
  induction l with
  | nil => intro _; rfl
  | cons a l ih =>
    intro h
    unfold List.takeWhile
    rw [h a (List.mem_cons_self a l), ih (fun c hc => h c (List.mem_cons_of_mem a hc))]

/-- A slash-free string is its own base. -/
theorem pathBase_eq_self (s : String) (h : '/' ∉ s.data) : pathBase s = s := by
  unfold pathBase
  rw [takeWhile_eq_self_of_all _ _ ?_]
  · rw [List.reverse_reverse]
  · intro c hc
    have hc' := List.mem_reverse.mp hc
    simp only [decide_eq_true_eq]
    intro hslash
    rw [hslash] at hc'
    exact h hc'

/-- The backup snapshot is never written onto the target path itself:
the backup name strictly extends the target's base name, so the two
paths differ (given that the hash digest and the timestamp are
slash-free, as a hex digest and a `YYYYMMDD-HHMMSS` stamp are). -/
theorem backupPath_ne_path (cfg : FileEngineConfig) (wenv : WriteEnv) (path : String)
    (hh : '/' ∉ (wenv.hashHex path).data)
    (ht : '/' ∉ wenv.timestamp.data) :
    backupPath cfg wenv path ≠ path := by
  intro heq
  have hbase : pathBase path =
      pathBase path ++ "-" ++ wenv.hashHex path ++ "-" ++ wenv.timestamp ++ ".backup" := by
    conv_lhs => rw [← heq]
    unfold backupPath
    rw [pathBase_concat]
    apply pathBase_eq_self
    intro hmem
    simp only [String.data_append, List.mem_append] at hmem
    rcases hmem with ((((h | h) | h) | h) | h) | h
    · exact pathBase_no_slash path h
    · simp at h
    · exact hh h
    · simp at h
    · exact ht h
    · simp at h
  have hlen := congrArg String.length hbase
  simp only [String.length_append] at hlen
  have h7 : (".backup" : String).length = 7 := rfl
  have h1 : ("-" : String).length = 1 := rfl
  rw [h7, h1] at hlen
  omega

/-- The temp file is never the target itself. -/
theorem tempFile_ne_path (path : String) : path ++ ".tmp" ≠ path := by
  intro heq
  have := congrArg String.length heq
  rw [String.length_append] at this
  have h4 : (".tmp" : String).length = 4 := rfl
  rw [h4] at this
  omega

/-- Writing a path stores its content. -/
theorem diskGet_set_self (d : Disk) (p c : String) :
    diskGet (diskSet d p c) p = some c := by
  induction d with
  | nil => simp [diskSet, diskGet]
  | cons kv rest ih =>
    unfold diskSet
    by_cases h : kv.1 = p
    · rw [if_pos h]
      simp [diskGet]
    · rw [if_neg h]
      unfold diskGet
      rw [if_neg h]
      exact ih

/-- Writing one path does not disturb another. -/
theorem diskGet_set_ne (d : Disk) (p c q : String) (h : q ≠ p) :
    diskGet (diskSet d p c) q = diskGet d q := by
  induction d with
  | nil =>
    simp only [diskSet, diskGet]
    rw [if_neg (fun hpq => h hpq.symm)]
  | cons kv rest ih =>
    simp only [diskSet]
    by_cases hk : kv.1 = p
    · rw [if_pos hk]
      simp only [diskGet]
      rw [if_neg (fun hpq => h hpq.symm), if_neg (fun hq => h (hk.symm.trans hq).symm)]
    · rw [if_neg hk]
      simp only [diskGet]
      by_cases hq : kv.1 = q
      · rw [if_pos hq, if_pos hq]
      · rw [if_neg hq, if_neg hq]
        exact ih

/-- Removing one path does not disturb another. -/
theorem diskGet_remove_ne (d : Disk) (p q : String) (h : q ≠ p) :
    diskGet (diskRemove d p) q = diskGet d q := by
  induction d with
  | nil => rfl
  | cons kv rest ih =>
    simp only [diskRemove]
    by_cases hk : kv.1 = p
    · rw [if_pos hk, ih]
      simp only [diskGet]
      rw [if_neg (fun hq => h (hk.symm.trans hq).symm)]
    · rw [if_neg hk]
      simp only [diskGet]
      by_cases hq : kv.1 = q
      · rw [if_pos hq, if_pos hq]
      · rw [if_neg hq, if_neg hq]
        exact ih

/-- Insert-or-replace stores its value. -/
theorem itemsGet_set_self (l : List (String × CacheItem)) (p : String) (v : CacheItem) :
    itemsGet (itemsSet l p v) p = some v := by
  induction l with
  | nil => simp [itemsSet, itemsGet]
  | cons kv rest ih =>
    unfold itemsSet
    by_cases h : kv.1 = p
    · rw [if_pos h]
      simp [itemsGet]
    · rw [if_neg h]
      unfold itemsGet
      rw [if_neg h]
      exact ih

/-- A freshly set cache entry is an unexpired hit for its own
timestamp. -/
theorem cacheGet_set_self (c : FileCache) (p content : String) (now : Nat) :
    cacheGet (cacheSet c p content now) p now = some content := by
  unfold cacheGet cacheSet
  dsimp only
  rw [itemsGet_set_self]
  dsimp only
  rw [if_neg (by omega)]

/-- A successful backup pass leaves the target's content unchanged on
disk. -/
theorem createBackup_ok_get (cfg : FileEngineConfig) (wenv : WriteEnv)
    (d : Disk) (path : String) (d' : Disk)
    (hne : backupPath cfg wenv path ≠ path)
    (h : (createBackup cfg wenv d path).1 = .ok d') :
    diskGet d' path = diskGet d path := by
  unfold createBackup at h
  cases hd : diskGet d path with
  | none =>
    rw [hd] at h
    simp only [Except.ok.injEq] at h
    rw [← h]
    exact hd
  | some content =>
    rw [hd] at h
    dsimp only at h
    by_cases h1 : wenv.readBackupSourceFails
    · rw [if_pos h1] at h; cases h
    · rw [if_neg h1] at h
      by_cases h2 : wenv.mkdirFails
      · rw [if_pos h2] at h; cases h
      · rw [if_neg h2] at h
        by_cases h3 : wenv.writeBackupFails
        · rw [if_pos h3] at h; cases h
        · rw [if_neg h3] at h
          simp only [Except.ok.injEq] at h
          rw [← h, diskGet_set_ne _ _ _ _ (fun he => hne he.symm), hd]

/-- A successful backup stage leaves the target's content unchanged. -/
theorem writeBackupStep_ok_get (cfg : FileEngineConfig) (wenv : WriteEnv)
    (d : Disk) (path : String) (backup : Bool) (d1 : Disk) (ops : List FsOp)
    (hne : backupPath cfg wenv path ≠ path)
    (h : writeBackupStep cfg wenv d path backup = (.ok d1, ops)) :
    diskGet d1 path = diskGet d path := by
  unfold writeBackupStep at h
  by_cases hbk : backup
  · rw [if_pos hbk] at h
    cases hcb : createBackup cfg wenv d path with
    | mk cbres cbops =>
      rw [hcb] at h
      cases cbres with
      | error e => simp at h
      | ok d' =>
        simp only [Prod.mk.injEq, Except.ok.injEq] at h
        rw [← h.1]
        exact createBackup_ok_get cfg wenv d path d' hne (by rw [hcb])
  · rw [if_neg hbk] at h
    simp only [Prod.mk.injEq, Except.ok.injEq] at h
    rw [← h.1]

/-- C2: `WriteFile` is atomic with respect to the target path.  If the
call fails at any point — invalid path, backup failure, temp-file write
failure, rename failure — the target still holds its old content
byte-for-byte; moreover every disk state passed through before the
rename commits (where a crash could strand the file system) holds the
old content, since the temp file `path + ".tmp"` and the backup file are
never the target itself.  On success the target holds exactly the new
content and the cache entry for the path is replaced by the new content
in the same call (an immediate unexpired hit), never
invalidated-and-refetched.  The hypotheses state that the externally
supplied sha256 hex digest and timestamp are slash-free, as they are in
the source. -/
theorem C2_write_atomic (env : PathEnv) (cfg : FileEngineConfig) (wenv : WriteEnv)
    (st : EngineState) (path content : String) (backup : Bool) (now : Nat)
    (hh : '/' ∉ (wenv.hashHex path).data)
    (ht : '/' ∉ wenv.timestamp.data) :
    (∀ e, (WriteFile env cfg wenv st path content backup now).result = .error e →
      diskGet (WriteFile env cfg wenv st path content backup now).state.disk path =
        diskGet st.disk path) ∧
    (∀ d ∈ (WriteFile env cfg wenv st path content backup now).preRenameDisks,
      diskGet d path = diskGet st.disk path) ∧
    ((WriteFile env cfg wenv st path content backup now).result = .ok () →
      diskGet (WriteFile env cfg wenv st path content backup now).state.disk path =
        some content ∧
      ∀ c, st.cache = some c →
        (WriteFile env cfg wenv st path content backup now).state.cache =
          some (cacheSet c path content now) ∧
        cacheGet (cacheSet c path content now) path now = some content) := by
  have hbne := backupPath_ne_path cfg wenv path hh ht
  have htne := tempFile_ne_path path
  cases hv : ValidatePath env cfg path with
  | error e0 =>
    have hw : WriteFile env cfg wenv st path content backup now =
        ⟨.error e0, st, [], [st.disk]⟩ := by
      unfold WriteFile
      rw [hv]
    refine ⟨?_, ?_, ?_⟩
    · intro e _
      rw [hw]
    · intro d hd
      rw [hw] at hd
      rcases List.mem_singleton.mp hd with rfl
      rfl
    · intro hok
      rw [hw] at hok
      cases hok
  | ok u =>
    cases hws : writeBackupStep cfg wenv st.disk path backup with
    | mk wsres wsops =>
      cases wsres with
      | error e1 =>
        have hw : WriteFile env cfg wenv st path content backup now =
            ⟨.error e1, st, wsops, [st.disk]⟩ := by
          unfold WriteFile
          rw [hv]
          dsimp only
          rw [hws]
        refine ⟨?_, ?_, ?_⟩
        · intro e _
          rw [hw]
        · intro d hd
          rw [hw] at hd
          rcases List.mem_singleton.mp hd with rfl
          rfl
        · intro hok
          rw [hw] at hok
          cases hok
      | ok d1 =>
        have hd1 : diskGet d1 path = diskGet st.disk path :=
          writeBackupStep_ok_get cfg wenv st.disk path backup d1 wsops hbne hws
        by_cases htf : wenv.writeTempFails
        · have hw : WriteFile env cfg wenv st path content backup now =
              ⟨.error .genericErr, { st with disk := d1 },
                wsops ++ [.writeOp (path ++ ".tmp")], [st.disk, d1]⟩ := by
            unfold WriteFile
            rw [hv]
            dsimp only
            rw [hws]
            dsimp only
            rw [if_pos htf]
          refine ⟨?_, ?_, ?_⟩
          · intro e _
            rw [hw]
            exact hd1
          · intro d hd
            rw [hw] at hd
            rcases List.mem_cons.mp hd with rfl | hd
            · rfl
            · rcases List.mem_singleton.mp hd with rfl
              exact hd1
          · intro hok
            rw [hw] at hok
            cases hok
        · by_cases hrf : wenv.renameFails
          · have hw : WriteFile env cfg wenv st path content backup now =
                ⟨.error .genericErr,
                  { st with disk := diskRemove (diskSet d1 (path ++ ".tmp") content) (path ++ ".tmp") },
                  wsops ++ [.writeOp (path ++ ".tmp"), .renameOp (path ++ ".tmp") path,
                    .removeOp (path ++ ".tmp")],
                  [st.disk, d1, diskSet d1 (path ++ ".tmp") content]⟩ := by
              unfold WriteFile
              rw [hv]
              dsimp only
              rw [hws]
              dsimp only
              rw [if_neg htf, if_pos hrf]
            refine ⟨?_, ?_, ?_⟩
            · intro e _
              rw [hw]
              show diskGet (diskRemove (diskSet d1 (path ++ ".tmp") content)
                (path ++ ".tmp")) path = _
              rw [diskGet_remove_ne _ _ _ (fun he => htne he.symm),
                diskGet_set_ne _ _ _ _ (fun he => htne he.symm)]
              exact hd1
            · intro d hd
              rw [hw] at hd
              rcases List.mem_cons.mp hd with rfl | hd
              · rfl
              · rcases List.mem_cons.mp hd with rfl | hd
                · exact hd1
                · rcases List.mem_singleton.mp hd with rfl
                  rw [diskGet_set_ne _ _ _ _ (fun he => htne he.symm)]
                  exact hd1
            · intro hok
              rw [hw] at hok
              cases hok
          · have hw : WriteFile env cfg wenv st path content backup now =
                ⟨.ok (),
                  { disk := diskRename (diskSet d1 (path ++ ".tmp") content) (path ++ ".tmp") path
                  , cache := st.cache.map (fun c => cacheSet c path content now) },
                  wsops ++ [.writeOp (path ++ ".tmp"), .renameOp (path ++ ".tmp") path],
                  [st.disk, d1, diskSet d1 (path ++ ".tmp") content]⟩ := by
              unfold WriteFile
              rw [hv]
              dsimp only
              rw [hws]
              dsimp only
              rw [if_neg htf, if_neg hrf]
            refine ⟨?_, ?_, ?_⟩
            · intro e he
              rw [hw] at he
              cases he
            · intro d hd
              rw [hw] at hd
              rcases List.mem_cons.mp hd with rfl | hd
              · rfl
              · rcases List.mem_cons.mp hd with rfl | hd
                · exact hd1
                · rcases List.mem_singleton.mp hd with rfl
                  rw [diskGet_set_ne _ _ _ _ (fun he => htne he.symm)]
                  exact hd1
            · intro _
              constructor
              · rw [hw]
                show diskGet (diskRename (diskSet d1 (path ++ ".tmp") content)
                  (path ++ ".tmp") path) path = some content
                unfold diskRename
                rw [diskGet_set_self]
                exact diskGet_set_self _ _ _
              · intro c hc
                constructor
                · rw [hw]
                  show st.cache.map (fun c => cacheSet c path content now) = _
                  rw [hc]
                  rfl
                · exact cacheGet_set_self c path content now

/-- Witness for C2 at a concrete engine state: overwriting `/a/f` (old
content `old`) with `new`, backup requested, cache enabled. -/
theorem C2_witness :
    (∀ e, (WriteFile envAbs cfgRootA wenvOk
        { disk := [("/a/f", "old")], cache := some newFileCache }
        "/a/f" "new" true 5).result = .error e →
      diskGet (WriteFile envAbs cfgRootA wenvOk
        { disk := [("/a/f", "old")], cache := some newFileCache }
        "/a/f" "new" true 5).state.disk "/a/f" =
        diskGet [("/a/f", "old")] "/a/f") ∧
    (∀ d ∈ (WriteFile envAbs cfgRootA wenvOk
        { disk := [("/a/f", "old")], cache := some newFileCache }
        "/a/f" "new" true 5).preRenameDisks,
      diskGet d "/a/f" = diskGet [("/a/f", "old")] "/a/f") ∧
    ((WriteFile envAbs cfgRootA wenvOk
        { disk := [("/a/f", "old")], cache := some newFileCache }
        "/a/f" "new" true 5).result = .ok () →
      diskGet (WriteFile envAbs cfgRootA wenvOk
        { disk := [("/a/f", "old")], cache := some newFileCache }
        "/a/f" "new" true 5).state.disk "/a/f" = some "new" ∧
      ∀ c, ({ disk := [("/a/f", "old")], cache := some newFileCache } :
          EngineState).cache = some c →
        (WriteFile envAbs cfgRootA wenvOk
          { disk := [("/a/f", "old")], cache := some newFileCache }
          "/a/f" "new" true 5).state.cache = some (cacheSet c "/a/f" "new" 5) ∧
        cacheGet (cacheSet c "/a/f" "new" 5) "/a/f" 5 = some "new") :=
  C2_write_atomic envAbs cfgRootA wenvOk
    { disk := [("/a/f", "old")], cache := some newFileCache }
    "/a/f" "new" true 5 (by decide) (by decide)

end PolyAgent
